import Mathlib

/-!
Verification of the incremental character-network graph model and
visualization helpers of the gutenberg-frontend repository.

The embedding follows the TypeScript source:
* `useNetworkData` — `updateData`, `highlightCharacter`,
  `getCharacterInteractions` (graph aggregation and ranking);
* `NetworkVisualization` — `autoFitGraph` (camera fitting) and the
  highlight effect (per-node / per-link visual state).

JavaScript numbers are modelled as `Int` where the program only ever
stores integral data (mention counts, interaction weights) and as `ℝ`
where continuous arithmetic happens (derived radii, stroke widths,
positions, camera transforms).  A JavaScript `Map` is modelled as an
association list in insertion order (`alookup` / `alistSet` below mirror
`Map.get` / `Map.set`, which updates an existing key in place and appends
a fresh key at the end).  `Array.prototype.sort` is stable, and a stable
sort's output is uniquely determined by the comparator and the input
order, so it is modelled by `List.insertionSort`, which is stable.
-/

namespace GutenbergGraph

/-- An item of the `characters[]` list of a streamed batch
(`Character` in src types). -/
structure Character where
  name : String
  mentions : Int
  description : String
deriving DecidableEq

/-- An item of the `interactions[]` list of a streamed batch
(`Interaction` in src types). -/
structure Interaction where
  source : String
  target : String
  weight : Int
  contexts : List String
deriving DecidableEq

/-- A cumulative analysis batch (`AnalysisResult` in src types).  Each list
is wrapped in `Option`: `none` models an absent (`undefined`) field, the
malformed-payload case `updateData` guards against with
`if (!data?.characters || !data?.interactions) return`. -/
structure AnalysisResult where
  characters : Option (List Character)
  interactions : Option (List Interaction)
deriving DecidableEq

/-- A graph node (`NetworkNode` in src types).  The derived field `radius`
of the source is a pure function of `mentions`, computed once at
construction and never mutated afterwards, so it is represented by the
derived function `NetworkNode.radius` below instead of a stored field.
The position fields `x`, `y` and the pin fields `fx`, `fy` are optional:
`none` models the absent (`undefined`) fields of a freshly built node. -/
structure NetworkNode where
  id : String
  name : String
  mentions : Int
  description : String
  importance : Int
  color : String
  x : Option ℝ := none
  y : Option ℝ := none
  fx : Option ℝ := none
  fy : Option ℝ := none

/-- A graph link (`NetworkLink` in src types).  `updateData` always builds
links whose endpoints are character names (strings); the derived
`strokeWidth` is a pure function of `weight`, represented by
`NetworkLink.strokeWidth` below. -/
structure NetworkLink where
  source : String
  target : String
  weight : Int
  contexts : List String
deriving DecidableEq

/-- Derived node radius:
`Math.max(30, Math.min(60, 20 + Math.sqrt(char.mentions) * 6))`. -/
noncomputable def NetworkNode.radius (n : NetworkNode) : ℝ :=
  max 30 (min 60 (20 + Real.sqrt (n.mentions : ℝ) * 6))

/-- Derived link stroke width:
`Math.max(2, Math.min(10, Math.sqrt(interaction.weight) * 2.5))`. -/
noncomputable def NetworkLink.strokeWidth (l : NetworkLink) : ℝ :=
  max 2 (min 10 (Real.sqrt (l.weight : ℝ) * 2.5))

/-- The 50-entry color palette of `useNetworkData`. -/
def colorPalette : List String :=
  ["#ff6b6b", "#4ecdc4", "#45b7d1", "#96ceb4", "#feca57",
   "#ff9ff3", "#54a0ff", "#5f27cd", "#00d2d3", "#ff9f43",
   "#10ac84", "#ee5253", "#0abde3", "#3742fa", "#2ed573",
   "#ff5722", "#9c27b0", "#673ab7", "#3f51b5", "#2196f3",
   "#03a9f4", "#00bcd4", "#009688", "#4caf50", "#8bc34a",
   "#cddc39", "#ffeb3b", "#ffc107", "#ff9800", "#ff5722",
   "#795548", "#607d8b", "#e91e63", "#f44336", "#ff4081",
   "#c51162", "#aa00ff", "#6200ea", "#3d5afe", "#2979ff",
   "#00b0ff", "#00e5ff", "#1de9b6", "#00e676", "#76ff03",
   "#c6ff00", "#ffea00", "#ffc400", "#ff9100", "#ff3d00"]

/-- Node construction inside `updateData` for the filtered character at
position `index` of the filtered list: `importance` is
`Math.min(5, Math.ceil(char.mentions / 5))`, `color` is
`colorPalette[index % colorPalette.length]`, and no position or pin
fields are set. -/
def mkNode (index : Nat) (c : Character) : NetworkNode :=
  { id := c.name
    name := c.name
    mentions := c.mentions
    description := c.description
    importance := min 5 ⌈(c.mentions : ℚ) / 5⌉
    color := colorPalette.getD (index % colorPalette.length) "" }

/-- `filteredCharacters.map((char, index) => ...)`: build the node list,
threading the index used for color assignment. -/
def buildNodes : Nat → List Character → List NetworkNode
  | _, [] => []
  | index, c :: rest => mkNode index c :: buildNodes (index + 1) rest

/-- Link construction inside `updateData` for a surviving interaction. -/
def mkLink (i : Interaction) : NetworkLink :=
  { source := i.source
    target := i.target
    weight := i.weight
    contexts := i.contexts }

/-- The state held by the `useNetworkData` hook: the node list, the link
list and the currently highlighted character. -/
structure GraphState where
  nodes : List NetworkNode
  links : List NetworkLink
  highlightedCharacter : Option String

/-- Initial hook state: empty nodes, empty links, no highlight. -/
def initialGraphState : GraphState :=
  { nodes := [], links := [], highlightedCharacter := none }

/-- `updateData` of `useNetworkData`: a batch missing either list is a
no-op; otherwise characters with fewer than 2 mentions are filtered out,
nodes are rebuilt from scratch (with palette colors by index), and the
interactions whose endpoints both survived and whose weight is at least 2
are rebuilt into links.  The `characterMap` of the source is keyed by
character name over exactly the filtered characters, so `has` tests are
name-membership in the filtered list. -/
def updateData (data : AnalysisResult) (s : GraphState) : GraphState :=
  match data.characters, data.interactions with
  | some chars, some inters =>
    let filteredCharacters := chars.filter (fun c => decide (2 ≤ c.mentions))
    let newNodes := buildNodes 0 filteredCharacters
    let names := filteredCharacters.map Character.name
    let validInteractions := inters.filter (fun i =>
      decide (i.source ∈ names ∧ i.target ∈ names ∧ 2 ≤ i.weight))
    { s with nodes := newNodes, links := validInteractions.map mkLink }
  | _, _ => s

/-- `highlightCharacter` of `useNetworkData`: store the selection. -/
def highlightCharacter (sel : Option String) (s : GraphState) : GraphState :=
  { s with highlightedCharacter := sel }

/-- `Map.get`: first entry with the given key, in insertion order. -/
def alookup {β : Type} : List (String × β) → String → Option β
  | [], _ => none
  | (k, v) :: rest, key => if k = key then some v else alookup rest key

/-- `Map.set`: update the value of an existing key in place, or append a
fresh key at the end. -/
def alistSet {β : Type} : List (String × β) → String → β → List (String × β)
  | [], key, val => [(key, val)]
  | (k, v) :: rest, key, val =>
    if k = key then (key, val) :: rest else (k, v) :: alistSet rest key val

/-- `Array.from(interactions.values()).reduce((sum, weight) => sum + weight, 0)`. -/
def innerSum (inner : List (String × Int)) : Int :=
  (inner.map Prod.snd).sum

/-- `nodes.forEach(node => interactionMap.set(node.name, new Map()))`. -/
def initInteractionMap (nodes : List NetworkNode) : List (String × List (String × Int)) :=
  nodes.foldl (fun m node => alistSet m node.name []) []

/-- `sourceMap.set(targetName, (sourceMap.get(targetName) || 0) + link.weight)`:
add `w` to entry `b` of the inner map stored at key `a` (no-op when `a` is
absent; `processLink` only calls it on present keys). -/
def addWeight (m : List (String × List (String × Int))) (a b : String) (w : Int) :
    List (String × List (String × Int)) :=
  match alookup m a with
  | some inner => alistSet m a (alistSet inner b ((alookup inner b).getD 0 + w))
  | none => m

/-- One iteration of `links.forEach(...)` in `getCharacterInteractions`:
when both endpoint maps exist, the link's weight is added to the source's
entry for the target and then to the target's entry for the source (for a
self-loop both additions hit the same map). -/
def processLink (m : List (String × List (String × Int))) (l : NetworkLink) :
    List (String × List (String × Int)) :=
  if (alookup m l.source).isSome ∧ (alookup m l.target).isSome then
    addWeight (addWeight m l.source l.target l.weight) l.target l.source l.weight
  else m

/-- The fully populated `interactionMap` of `getCharacterInteractions`. -/
def buildInteractionMap (nodes : List NetworkNode) (links : List NetworkLink) :
    List (String × List (String × Int)) :=
  links.foldl processLink (initInteractionMap nodes)

/-- The accumulated weight recorded in `a`'s inner map for partner `b`
(0 when absent). -/
def pairWeight (m : List (String × List (String × Int))) (a b : String) : Int :=
  ((alookup m a).bind (fun inner => alookup inner b)).getD 0

/-- One element of the derived Character Interaction Summary. -/
structure CharacterInteractionSummary where
  character : String
  totalInteractions : Int
  partners : List (String × Int)
deriving DecidableEq

/-- `getCharacterInteractions` of `useNetworkData`: build the interaction
map, convert each entry to a summary (total = sum of the inner map's
values, partners = inner entries sorted by descending weight, first 8),
then sort the summaries by descending `totalInteractions`.  Both
JavaScript sorts are stable, hence modelled by `List.insertionSort`. -/
def getCharacterInteractions (nodes : List NetworkNode) (links : List NetworkLink) :
    List CharacterInteractionSummary :=
  let m := buildInteractionMap nodes links
  let entries := m.map (fun p =>
    { character := p.1
      totalInteractions := innerSum p.2
      partners := (List.insertionSort (fun x y : String × Int => y.2 ≤ x.2) p.2).take 8
      : CharacterInteractionSummary })
  List.insertionSort
    (fun a b : CharacterInteractionSummary => b.totalInteractions ≤ a.totalInteractions)
    entries

/-- Visual classification of a node under the highlight effect. -/
inductive NodeVisual where
  | plain
  | selected
  | connected
deriving DecidableEq

/-- Visual classification of a link under the highlight effect. -/
inductive LinkVisual where
  | plain
  | active
deriving DecidableEq

/-- The `connectedCharacters` list of the highlight effect: for every link
with the selected name as an endpoint, take the target name when the
source is the selected name, and the source name otherwise. -/
def connectedCharactersOf (links : List NetworkLink) (sel : String) : List String :=
  (links.filter (fun l => decide (l.source = sel ∨ l.target = sel))).map
    (fun l => if l.source = sel then l.target else l.source)

/-- Final visual state of the node named `nm` under selection `sel`,
as produced by the highlight effect of `NetworkVisualization`: a `null`
selection resets everything; otherwise the selected-styling transition is
scheduled first and the connected-styling transition afterwards, so a node
that matches both (possible only via a self-loop) ends up `connected`. -/
def nodeVisualState (links : List NetworkLink) (sel : Option String) (nm : String) :
    NodeVisual :=
  match sel with
  | none => NodeVisual.plain
  | some h =>
    if nm ∈ connectedCharactersOf links h then NodeVisual.connected
    else if nm = h then NodeVisual.selected
    else NodeVisual.plain

/-- Final visual state of a link under selection `sel`: active exactly when
one of its endpoints is the selected name. -/
def linkVisualState (sel : Option String) (l : NetworkLink) : LinkVisual :=
  match sel with
  | none => LinkVisual.plain
  | some h =>
    if l.source = h ∨ l.target = h then LinkVisual.active else LinkVisual.plain

/-- `Math.min(...xs)` over a non-empty list (the empty case never arises:
`autoFitGraph` returns before it). -/
noncomputable def listMin : List ℝ → ℝ
  | [] => 0
  | x :: xs => xs.foldl min x

/-- `Math.max(...xs)` over a non-empty list. -/
noncomputable def listMax : List ℝ → ℝ
  | [] => 0
  | x :: xs => xs.foldl max x

/-- `node.x || 0` (and `node.y || 0`): positions default to 0. -/
def nodeFitX (n : NetworkNode) : ℝ := n.x.getD 0

/-- See `nodeFitX`. -/
def nodeFitY (n : NetworkNode) : ℝ := n.y.getD 0

/-- The per-node bounding radius of `autoFitGraph`:
`textWidth = name.length * 8 + 20`,
`effectiveRadius = max(node.radius, textWidth / 2)`, plus 20 padding. -/
noncomputable def fitRadius (n : NetworkNode) : ℝ :=
  max n.radius (((n.name.length : ℝ) * 8 + 20) / 2) + 20

/-- `autoFitGraph` of `NetworkVisualization`, as the transform it schedules:
`none` when there are no nodes (early return), otherwise
`some (translateX, translateY, scale)`.  `maxX - minX || 100` is modelled
by an equality test with 0 (reals have no `NaN`). -/
noncomputable def autoFitGraph (nodes : List NetworkNode) (width height : ℝ) :
    Option (ℝ × ℝ × ℝ) :=
  match nodes with
  | [] => none
  | n0 :: rest =>
    let ns := n0 :: rest
    let minX := listMin (ns.map fun n => nodeFitX n - fitRadius n)
    let maxX := listMax (ns.map fun n => nodeFitX n + fitRadius n)
    let minY := listMin (ns.map fun n => nodeFitY n - fitRadius n)
    let maxY := listMax (ns.map fun n => nodeFitY n + fitRadius n)
    let contentWidth := if maxX - minX = 0 then 100 else maxX - minX
    let contentHeight := if maxY - minY = 0 then 100 else maxY - minY
    let contentCenterX := (minX + maxX) / 2
    let contentCenterY := (minY + maxY) / 2
    let scale := min (min ((width - 2 * 80) / contentWidth) ((height - 2 * 80) / contentHeight)) 1.5
    some (width / 2 - contentCenterX * scale, height / 2 - contentCenterY * scale, scale)

/-- The auto-fit transform as the claim words it: bounding box of
`position ± (max(node.radius, (nameLength * 8 + 20) / 2) + 20)`, content
width/height floored at 100, scale
`min((W - 160) / contentWidth, (H - 160) / contentHeight, 1.5)`, translate
`(W/2 - centerX * scale, H/2 - centerY * scale)`; no-op without nodes. -/
noncomputable def specAutoFitGraph (nodes : List NetworkNode) (width height : ℝ) :
    Option (ℝ × ℝ × ℝ) :=
  match nodes with
  | [] => none
  | n0 :: rest =>
    let ns := n0 :: rest
    let minX := listMin (ns.map fun n => nodeFitX n - fitRadius n)
    let maxX := listMax (ns.map fun n => nodeFitX n + fitRadius n)
    let minY := listMin (ns.map fun n => nodeFitY n - fitRadius n)
    let maxY := listMax (ns.map fun n => nodeFitY n + fitRadius n)
    let contentWidth := max (maxX - minX) 100
    let contentHeight := max (maxY - minY) 100
    let contentCenterX := (minX + maxX) / 2
    let contentCenterY := (minY + maxY) / 2
    let scale := min (min ((width - 160) / contentWidth) ((height - 160) / contentHeight)) 1.5
    some (width / 2 - contentCenterX * scale, height / 2 - contentCenterY * scale, scale)

/-- Contribution of one link to a character's `totalInteractions` as
accumulated by `getCharacterInteractions`: links whose endpoints are not
both known contribute nothing; otherwise the weight counts once for each
endpoint equal to the character (twice for a self-loop). -/
def incidentContribution (names : List String) (c : String) (l : NetworkLink) : Int :=
  if l.source ∈ names ∧ l.target ∈ names then
    (if l.source = c then l.weight else 0) + (if l.target = c then l.weight else 0)
  else 0

/-- Contribution of one link to the accumulated partner weight of the
ordered pair `(c, d)`. -/
def pairContribution (names : List String) (c d : String) (l : NetworkLink) : Int :=
  if l.source ∈ names ∧ l.target ∈ names then
    (if c = l.source ∧ d = l.target then l.weight else 0) +
    (if c = l.target ∧ d = l.source then l.weight else 0)
  else 0

theorem buildNodes_map_pair (cs : List Character) : ∀ i : Nat,
    (buildNodes i cs).map (fun n => (n.name, n.mentions)) =
      cs.map (fun c => (c.name, c.mentions)) := by
  induction cs with
  | nil => intro i; rfl
  | cons c rest ih => intro i; simp [buildNodes, mkNode, ih]

theorem buildNodes_map_name (cs : List Character) : ∀ i : Nat,
    (buildNodes i cs).map NetworkNode.name = cs.map Character.name := by
  induction cs with
  | nil => intro i; rfl
  | cons c rest ih => intro i; simp [buildNodes, mkNode, ih]

theorem mem_buildNodes {n : NetworkNode} {cs : List Character} :
    ∀ {i : Nat}, n ∈ buildNodes i cs → ∃ j c, c ∈ cs ∧ n = mkNode j c := by
  induction cs with
  | nil => intro i h; cases h
  | cons c rest ih =>
    intro i h
    rcases List.mem_cons.mp h with h1 | h2
    · exact ⟨i, c, List.mem_cons_self c rest, h1⟩
    · obtain ⟨j, c2, hmem, hn⟩ := ih h2
      exact ⟨j, c2, List.mem_cons_of_mem c hmem, hn⟩

theorem buildNodes_getElem (cs : List Character) : ∀ (i j : Nat),
    (buildNodes i cs)[j]? = (cs[j]?).map (fun c => mkNode (i + j) c) := by
  induction cs with
  | nil => intro i j; simp [buildNodes]
  | cons c rest ih =>
    intro i j
    cases j with
    | zero => simp [buildNodes]
    | succ k =>
      have h := ih (i + 1) k
      simp only [buildNodes, List.getElem?_cons_succ, h]
      have hik : i + 1 + k = i + (k + 1) := by omega
      rw [hik]

/-- C9: a batch whose `characters` or `interactions` field is absent is a
silent no-op: `updateData` returns and the previous nodes, links and
highlight state are retained unchanged. -/
theorem updateData_missing_field_noop (data : AnalysisResult) (s : GraphState)
    (h : data.characters = none ∨ data.interactions = none) :
    updateData data s = s := by
  rcases data with ⟨oc, oi⟩
  cases oc with
  | none => cases oi <;> rfl
  | some cs =>
    cases oi with
    | none => rfl
    | some is => simp at h

theorem updateData_missing_field_noop_witness :
    updateData (AnalysisResult.mk none (some [])) initialGraphState = initialGraphState :=
  updateData_missing_field_noop _ _ (Or.inl rfl)

/-- C3: applying `updateData` twice with the same batch yields the same
node and link sets as applying it once, and for a well-formed batch the
resulting node and link sets do not depend on the prior graph state. -/
theorem updateData_idempotent (data : AnalysisResult) (s : GraphState) :
    (updateData data (updateData data s)).nodes = (updateData data s).nodes ∧
    (updateData data (updateData data s)).links = (updateData data s).links ∧
    (∀ chars inters s2, data = AnalysisResult.mk (some chars) (some inters) →
      (updateData data s2).nodes = (updateData data s).nodes ∧
      (updateData data s2).links = (updateData data s).links) := by
  rcases data with ⟨oc, oi⟩
  cases oc <;> cases oi <;> simp [updateData]

theorem updateData_idempotent_witness :
    (updateData (AnalysisResult.mk (some [⟨"Alice", 10, "d"⟩]) (some []))
        { nodes := [], links := [], highlightedCharacter := some "Bob" }).nodes =
      (updateData (AnalysisResult.mk (some [⟨"Alice", 10, "d"⟩]) (some []))
        initialGraphState).nodes :=
  ((updateData_idempotent (AnalysisResult.mk (some [⟨"Alice", 10, "d"⟩]) (some []))
      initialGraphState).2.2 _ _
    { nodes := [], links := [], highlightedCharacter := some "Bob" } rfl).1

/-- C5 (amended): `updateData` rebuilds every node from scratch; each node
of the resulting node set has absent position fields `x`, `y` and absent
pin fields `fx`, `fy` — the rebuild does not carry over the positions of
previously existing nodes. -/
theorem updateData_nodes_have_no_position (chars : List Character)
    (inters : List Interaction) (s : GraphState) (n : NetworkNode)
    (h : n ∈ (updateData (AnalysisResult.mk (some chars) (some inters)) s).nodes) :
    n.x = none ∧ n.y = none ∧ n.fx = none ∧ n.fy = none := by
  have h2 : n ∈ buildNodes 0 (chars.filter fun c => decide (2 ≤ c.mentions)) := h
  obtain ⟨j, c, _, rfl⟩ := mem_buildNodes h2
  exact ⟨rfl, rfl, rfl, rfl⟩

theorem updateData_nodes_have_no_position_witness :
    (mkNode 0 ⟨"Alice", 40, "d"⟩).x = none ∧ (mkNode 0 ⟨"Alice", 40, "d"⟩).y = none ∧
    (mkNode 0 ⟨"Alice", 40, "d"⟩).fx = none ∧ (mkNode 0 ⟨"Alice", 40, "d"⟩).fy = none :=
  updateData_nodes_have_no_position [⟨"Alice", 40, "d"⟩] [] initialGraphState
    (mkNode 0 ⟨"Alice", 40, "d"⟩) (List.mem_singleton.mpr rfl)

/-- C5 is false as stated: a node present before and after `updateData`
does not keep its position — rebuilding drops `x`, `y`, `fx`, `fy`.
Concretely, Alice has position fields before the second batch and the
rebuilt Alice node has none. -/
theorem updateData_resets_positions :
    ((updateData (AnalysisResult.mk (some [⟨"Alice", 40, "d"⟩]) (some []))
        { nodes := [{ id := "Alice", name := "Alice", mentions := 10, description := "d",
                      importance := 2, color := "#ff6b6b",
                      x := some 17, y := some 4, fx := some 1, fy := some 2 }],
          links := [], highlightedCharacter := none }).nodes.map (fun n => n.x)) = [none] ∧
    ({ nodes := [{ id := "Alice", name := "Alice", mentions := 10, description := "d",
                   importance := 2, color := "#ff6b6b",
                   x := some 17, y := some 4, fx := some 1, fy := some 2 }],
       links := [], highlightedCharacter := none : GraphState }).nodes.map (fun n => n.x) =
      [some 17] ∧
    some (17 : ℝ) ≠ (none : Option ℝ) :=
  ⟨rfl, rfl, by simp⟩

/-- C6 (amended): a node's color is a function of its index in the current
batch's filtered character list alone — `colorPalette[index % 50]` — and is
recomputed on every rebuild, so it can change between batches when the
index shifts. -/
theorem node_color_from_batch_index (chars : List Character) (inters : List Interaction)
    (s : GraphState) (j : Nat) (n : NetworkNode)
    (h : ((updateData (AnalysisResult.mk (some chars) (some inters)) s).nodes)[j]? = some n) :
    n.color = colorPalette.getD (j % colorPalette.length) "" := by
  rw [show (updateData (AnalysisResult.mk (some chars) (some inters)) s).nodes =
      buildNodes 0 (chars.filter fun c => decide (2 ≤ c.mentions)) from rfl,
    buildNodes_getElem] at h
  rcases hx : (chars.filter fun c => decide (2 ≤ c.mentions))[j]? with _ | c
  · rw [hx] at h; cases h
  · rw [hx] at h
    have h2 : some (mkNode (0 + j) c) = some n := h
    cases h2
    simp [mkNode]

theorem node_color_from_batch_index_witness :
    (mkNode 0 ⟨"Alice", 5, "d"⟩).color = colorPalette.getD (0 % colorPalette.length) "" :=
  node_color_from_batch_index [⟨"Alice", 5, "d"⟩] [] initialGraphState 0
    (mkNode 0 ⟨"Alice", 5, "d"⟩) rfl

/-- C6 is false as stated: Alice is assigned the first palette color by the
first batch and a different palette color by the second batch, because her
index in the rebuilt filtered list shifted. -/
theorem node_color_changes_between_batches :
    ((updateData (AnalysisResult.mk (some [⟨"Alice", 5, "d"⟩]) (some []))
        initialGraphState).nodes.map (fun n => (n.name, n.color))) =
      [("Alice", "#ff6b6b")] ∧
    ((updateData (AnalysisResult.mk (some [⟨"Bob", 5, "d"⟩, ⟨"Alice", 5, "d"⟩]) (some []))
        (updateData (AnalysisResult.mk (some [⟨"Alice", 5, "d"⟩]) (some []))
          initialGraphState)).nodes.map (fun n => (n.name, n.color))) =
      [("Bob", "#ff6b6b"), ("Alice", "#4ecdc4")] ∧
    ("#4ecdc4" : String) ≠ "#ff6b6b" :=
  ⟨rfl, rfl, by decide⟩

theorem exists_node_name_iff (cs : List Character) (x : String) :
    (∃ n ∈ buildNodes 0 cs, n.name = x) ↔ x ∈ cs.map Character.name := by
  constructor
  · rintro ⟨n, hn, rfl⟩
    rw [← buildNodes_map_name cs 0]
    exact List.mem_map_of_mem _ hn
  · intro hx
    rw [← buildNodes_map_name cs 0] at hx
    obtain ⟨n, hn, h⟩ := List.mem_map.mp hx
    exact ⟨n, hn, h⟩

/-- C1: after a well-formed batch, the node set consists exactly of the
batch's characters with at least 2 mentions, and the link set consists
exactly of the batch's interactions with weight at least 2 whose two
endpoints both name surviving characters; in particular no link of the
result dangles. -/
theorem updateData_filters (chars : List Character) (inters : List Interaction)
    (s : GraphState) :
    (∀ c ∈ chars, 2 ≤ c.mentions →
      ∃ n ∈ (updateData (AnalysisResult.mk (some chars) (some inters)) s).nodes,
        n.name = c.name ∧ n.mentions = c.mentions) ∧
    (∀ n ∈ (updateData (AnalysisResult.mk (some chars) (some inters)) s).nodes,
      ∃ c ∈ chars, 2 ≤ c.mentions ∧ n.name = c.name ∧ n.mentions = c.mentions) ∧
    (∀ l ∈ (updateData (AnalysisResult.mk (some chars) (some inters)) s).links,
      2 ≤ l.weight ∧
      (∃ n ∈ (updateData (AnalysisResult.mk (some chars) (some inters)) s).nodes,
        n.name = l.source) ∧
      (∃ n ∈ (updateData (AnalysisResult.mk (some chars) (some inters)) s).nodes,
        n.name = l.target) ∧
      ∃ i ∈ inters, i.source = l.source ∧ i.target = l.target ∧ i.weight = l.weight) ∧
    (∀ i ∈ inters, 2 ≤ i.weight →
      (∃ c ∈ chars, 2 ≤ c.mentions ∧ c.name = i.source) →
      (∃ c ∈ chars, 2 ≤ c.mentions ∧ c.name = i.target) →
      ∃ l ∈ (updateData (AnalysisResult.mk (some chars) (some inters)) s).links,
        l.source = i.source ∧ l.target = i.target ∧ l.weight = i.weight) := by
  have hnodes : (updateData (AnalysisResult.mk (some chars) (some inters)) s).nodes =
      buildNodes 0 (chars.filter fun c => decide (2 ≤ c.mentions)) := rfl
  have hlinks : (updateData (AnalysisResult.mk (some chars) (some inters)) s).links =
      (inters.filter (fun i => decide
          (i.source ∈ (chars.filter fun c => decide (2 ≤ c.mentions)).map Character.name ∧
           i.target ∈ (chars.filter fun c => decide (2 ≤ c.mentions)).map Character.name ∧
           2 ≤ i.weight))).map mkLink := rfl
  refine ⟨?_, ?_, ?_, ?_⟩
  · intro c hc hm
    have hcF : c ∈ chars.filter fun c => decide (2 ≤ c.mentions) :=
      List.mem_filter.mpr ⟨hc, by simpa using hm⟩
    have hp : (c.name, c.mentions) ∈
        (chars.filter fun c => decide (2 ≤ c.mentions)).map (fun c => (c.name, c.mentions)) :=
      List.mem_map_of_mem _ hcF
    rw [← buildNodes_map_pair _ 0] at hp
    obtain ⟨n, hn, heq⟩ := List.mem_map.mp hp
    rw [hnodes]
    obtain ⟨h1, h2⟩ := Prod.mk.injEq .. ▸ heq
    exact ⟨n, hn, h1, h2⟩
  · intro n hn
    rw [hnodes] at hn
    have hp : (n.name, n.mentions) ∈
        (chars.filter fun c => decide (2 ≤ c.mentions)).map (fun c => (c.name, c.mentions)) := by
      rw [← buildNodes_map_pair _ 0]
      exact List.mem_map_of_mem _ hn
    obtain ⟨c, hcF, heq⟩ := List.mem_map.mp hp
    obtain ⟨hc, hm⟩ := List.mem_filter.mp hcF
    obtain ⟨h1, h2⟩ := Prod.mk.injEq .. ▸ heq
    exact ⟨c, hc, by simpa using hm, h1.symm, h2.symm⟩
  · intro l hl
    rw [hlinks] at hl
    obtain ⟨i, hi, rfl⟩ := List.mem_map.mp hl
    obtain ⟨hmem, hcond⟩ := List.mem_filter.mp hi
    obtain ⟨hs, ht, hw⟩ := of_decide_eq_true hcond
    refine ⟨hw, ?_, ?_, ⟨i, hmem, rfl, rfl, rfl⟩⟩
    · rw [hnodes]
      exact (exists_node_name_iff _ _).mpr hs
    · rw [hnodes]
      exact (exists_node_name_iff _ _).mpr ht
  · intro i hi hw hsrc htgt
    obtain ⟨c1, hc1, hm1, hn1⟩ := hsrc
    obtain ⟨c2, hc2, hm2, hn2⟩ := htgt
    have hs : i.source ∈ (chars.filter fun c => decide (2 ≤ c.mentions)).map Character.name := by
      rw [← hn1]
      exact List.mem_map_of_mem _ (List.mem_filter.mpr ⟨hc1, by simpa using hm1⟩)
    have ht : i.target ∈ (chars.filter fun c => decide (2 ≤ c.mentions)).map Character.name := by
      rw [← hn2]
      exact List.mem_map_of_mem _ (List.mem_filter.mpr ⟨hc2, by simpa using hm2⟩)
    rw [hlinks]
    exact ⟨mkLink i,
      List.mem_map_of_mem _ (List.mem_filter.mpr ⟨hi, decide_eq_true ⟨hs, ht, hw⟩⟩),
      rfl, rfl, rfl⟩

theorem updateData_filters_witness :
    ∃ n ∈ (updateData (AnalysisResult.mk
        (some [⟨"Alice", 10, "d"⟩, ⟨"Bob", 1, "d"⟩])
        (some [⟨"Alice", "Bob", 5, []⟩])) initialGraphState).nodes,
      n.name = "Alice" ∧ n.mentions = 10 :=
  (updateData_filters [⟨"Alice", 10, "d"⟩, ⟨"Bob", 1, "d"⟩] [⟨"Alice", "Bob", 5, []⟩]
      initialGraphState).1 ⟨"Alice", 10, "d"⟩ (by decide) (by decide)

theorem weight_ge_two_of_mem_links (chars : List Character) (inters : List Interaction)
    (s : GraphState) (l : NetworkLink)
    (hl : l ∈ (updateData (AnalysisResult.mk (some chars) (some inters)) s).links) :
    2 ≤ l.weight := by
  obtain ⟨i, hi, rfl⟩ := List.mem_map.mp hl
  exact (of_decide_eq_true (List.mem_filter.mp hi).2).2.2

theorem radius_ge_thirty (n : NetworkNode) : 30 ≤ n.radius :=
  le_max_left _ _

theorem radius_le_sixty (n : NetworkNode) : n.radius ≤ 60 :=
  max_le (by norm_num) (min_le_left _ _)

theorem strokeWidth_ge_two (l : NetworkLink) : 2 ≤ l.strokeWidth :=
  le_max_left _ _

theorem strokeWidth_le_ten (l : NetworkLink) : l.strokeWidth ≤ 10 :=
  max_le (by norm_num) (min_le_left _ _)

/-- C7: every node produced by `updateData` has `30 ≤ radius ≤ 60` with
`radius = clamp(20 + sqrt(mentions) * 6, 30, 60)`, an integer importance
`1 ≤ importance ≤ 5` equal to `min(5, ceil(mentions / 5))`, and
`mentions ≥ 2`; every produced link has `2 ≤ strokeWidth ≤ 10` with
`strokeWidth = clamp(sqrt(weight) * 2.5, 2, 10)`. -/
theorem derived_field_invariants (chars : List Character) (inters : List Interaction)
    (s : GraphState) :
    (∀ n ∈ (updateData (AnalysisResult.mk (some chars) (some inters)) s).nodes,
      30 ≤ n.radius ∧ n.radius ≤ 60 ∧
      n.radius = max 30 (min 60 (20 + Real.sqrt (n.mentions : ℝ) * 6)) ∧
      1 ≤ n.importance ∧ n.importance ≤ 5 ∧
      n.importance = min 5 ⌈(n.mentions : ℚ) / 5⌉ ∧ 2 ≤ n.mentions) ∧
    (∀ l ∈ (updateData (AnalysisResult.mk (some chars) (some inters)) s).links,
      2 ≤ l.strokeWidth ∧ l.strokeWidth ≤ 10 ∧
      l.strokeWidth = max 2 (min 10 (Real.sqrt (l.weight : ℝ) * 2.5)) ∧ 2 ≤ l.weight) := by
  constructor
  · intro n hn
    obtain ⟨j, c, hcF, rfl⟩ :=
      mem_buildNodes (show n ∈ buildNodes 0 (chars.filter fun c => decide (2 ≤ c.mentions))
        from hn)
    have hm : 2 ≤ c.mentions := by simpa using (List.mem_filter.mp hcF).2
    have hceil : 1 ≤ ⌈(c.mentions : ℚ) / 5⌉ := by
      have hpos : (0 : ℚ) < (c.mentions : ℚ) / 5 := by
        have : (0 : ℚ) < (c.mentions : ℚ) := by exact_mod_cast (by omega : (0 : ℤ) < c.mentions)
        exact div_pos this (by norm_num)
      have := Int.ceil_pos.mpr hpos
      omega
    refine ⟨radius_ge_thirty _, radius_le_sixty _, rfl, ?_, min_le_left _ _, rfl, hm⟩
    exact le_min (by norm_num) hceil
  · intro l hl
    exact ⟨strokeWidth_ge_two _, strokeWidth_le_ten _, rfl,
      weight_ge_two_of_mem_links chars inters s l hl⟩

theorem derived_field_invariants_witness :
    30 ≤ (mkNode 0 ⟨"Alice", 10, "d"⟩).radius ∧
    (mkNode 0 ⟨"Alice", 10, "d"⟩).radius ≤ 60 ∧
    (mkNode 0 ⟨"Alice", 10, "d"⟩).radius =
      max 30 (min 60 (20 + Real.sqrt ((mkNode 0 ⟨"Alice", 10, "d"⟩).mentions : ℝ) * 6)) ∧
    1 ≤ (mkNode 0 ⟨"Alice", 10, "d"⟩).importance ∧
    (mkNode 0 ⟨"Alice", 10, "d"⟩).importance ≤ 5 ∧
    (mkNode 0 ⟨"Alice", 10, "d"⟩).importance =
      min 5 ⌈((mkNode 0 ⟨"Alice", 10, "d"⟩).mentions : ℚ) / 5⌉ ∧
    2 ≤ (mkNode 0 ⟨"Alice", 10, "d"⟩).mentions :=
  (derived_field_invariants [⟨"Alice", 10, "d"⟩] [] initialGraphState).1
    (mkNode 0 ⟨"Alice", 10, "d"⟩) (List.mem_singleton.mpr rfl)

theorem mem_connectedCharactersOf (links : List NetworkLink) (h nm : String) :
    nm ∈ connectedCharactersOf links h ↔
      ∃ l ∈ links, (l.source = h ∧ l.target = nm) ∨ (l.target = h ∧ l.source = nm) := by
  unfold connectedCharactersOf
  rw [List.mem_map]
  constructor
  · rintro ⟨l, hl, hval⟩
    obtain ⟨hmem, hcond⟩ := List.mem_filter.mp hl
    have hc := of_decide_eq_true hcond
    refine ⟨l, hmem, ?_⟩
    by_cases hs : l.source = h
    · rw [if_pos hs] at hval
      exact Or.inl ⟨hs, hval⟩
    · rw [if_neg hs] at hval
      rcases hc with hc | hc
      · exact absurd hc hs
      · exact Or.inr ⟨hc, hval⟩
  · rintro ⟨l, hl, hdisj⟩
    rcases hdisj with ⟨hs, ht⟩ | ⟨ht, hs⟩
    · exact ⟨l, List.mem_filter.mpr ⟨hl, decide_eq_true (Or.inl hs)⟩,
        by rw [if_pos hs]; exact ht⟩
    · by_cases hs2 : l.source = h
      · refine ⟨l, List.mem_filter.mpr ⟨hl, decide_eq_true (Or.inl hs2)⟩, ?_⟩
        rw [if_pos hs2, ht, ← hs2]
        exact hs
      · exact ⟨l, List.mem_filter.mpr ⟨hl, decide_eq_true (Or.inr ht)⟩,
          by rw [if_neg hs2]; exact hs⟩

/-- C4 is false as stated: on a reachable graph containing the self-loop
Alice–Alice, selecting Alice leaves Alice's node in the `connected` visual
state (the connected-styling transition overrides the selected styling),
not in the `selected` state the claim requires. -/
theorem highlight_self_loop_marks_connected :
    nodeVisualState (updateData (AnalysisResult.mk (some [⟨"Alice", 5, "d"⟩])
        (some [⟨"Alice", "Alice", 3, []⟩])) initialGraphState).links
      (some "Alice") "Alice" = NodeVisual.connected ∧
    NodeVisual.connected ≠ NodeVisual.selected := by
  decide

/-- C4 (amended): selecting `h` marks active exactly the links with `h` as
an endpoint; it marks `connected` exactly the nodes that appear as the
opposite endpoint of an active link — which includes `h` itself exactly
when an active self-loop exists, in which case the connected mark
overrides the selected mark; in the absence of a self-loop on `h`, `h`'s
node is marked selected; every other node and link stays in the default
state, and a `null` selection leaves everything in the default state. -/
theorem highlight_states (links : List NetworkLink) (h nm : String) :
    (∀ l, linkVisualState (some h) l = LinkVisual.active ↔ (l.source = h ∨ l.target = h)) ∧
    (∀ l, linkVisualState none l = LinkVisual.plain) ∧
    nodeVisualState links none nm = NodeVisual.plain ∧
    (nodeVisualState links (some h) nm = NodeVisual.connected ↔
      ∃ l ∈ links, (l.source = h ∧ l.target = nm) ∨ (l.target = h ∧ l.source = nm)) ∧
    ((∀ l ∈ links, ¬(l.source = h ∧ l.target = h)) →
      nodeVisualState links (some h) h = NodeVisual.selected) ∧
    (nm ≠ h →
      (¬∃ l ∈ links, (l.source = h ∧ l.target = nm) ∨ (l.target = h ∧ l.source = nm)) →
      nodeVisualState links (some h) nm = NodeVisual.plain) := by
  refine ⟨?_, fun l => rfl, rfl, ?_, ?_, ?_⟩
  · intro l
    by_cases hc : l.source = h ∨ l.target = h <;> simp [linkVisualState, hc]
  · rw [← mem_connectedCharactersOf links h nm]
    by_cases hmem : nm ∈ connectedCharactersOf links h
    · simp [nodeVisualState, hmem]
    · by_cases hnm : nm = h <;> simp [nodeVisualState, hmem, hnm]
  · intro hns
    have hno : h ∉ connectedCharactersOf links h := by
      rw [mem_connectedCharactersOf]
      rintro ⟨l, hl, hd⟩
      rcases hd with ⟨a, b⟩ | ⟨a, b⟩
      · exact hns l hl ⟨a, b⟩
      · exact hns l hl ⟨b, a⟩
    simp [nodeVisualState, hno]
  · intro hne hnot
    have hno : nm ∉ connectedCharactersOf links h := by
      rw [mem_connectedCharactersOf]
      exact hnot
    simp [nodeVisualState, hno, hne]

theorem highlight_states_witness :
    nodeVisualState [⟨"Alice", "Bob", 3, []⟩, ⟨"Bob", "Carol", 2, []⟩]
      (some "Alice") "Alice" = NodeVisual.selected :=
  (highlight_states [⟨"Alice", "Bob", 3, []⟩, ⟨"Bob", "Carol", 2, []⟩]
    "Alice" "Carol").2.2.2.2.1 (by decide)

/-- Accumulated total interaction weight recorded for key `c` (0 when the
key is absent). -/
def totalOf (m : List (String × List (String × Int))) (c : String) : Int :=
  ((alookup m c).map innerSum).getD 0

theorem alookup_alistSet {β : Type} (m : List (String × β)) (k : String) (v : β)
    (key : String) :
    alookup (alistSet m k v) key = if key = k then some v else alookup m key := by
  induction m with
  | nil =>
    by_cases h : key = k
    · simp [alistSet, alookup, h]
    · simp [alistSet, alookup, h, Ne.symm h]
  | cons p rest ih =>
    obtain ⟨a, b⟩ := p
    simp only [alistSet]
    by_cases hak : a = k
    · rw [if_pos hak]
      subst hak
      by_cases h : key = a
      · simp [alookup, h]
      · simp [alookup, h, Ne.symm h]
    · rw [if_neg hak]
      simp only [alookup]
      by_cases h : a = key
      · have hkk : ¬key = k := by
          rw [← h]
          exact hak
        rw [if_pos h, if_pos h, if_neg hkk]
      · rw [if_neg h, if_neg h, ih]

theorem innerSum_alistSet_add (inner : List (String × Int)) (b : String) (w : Int) :
    innerSum (alistSet inner b ((alookup inner b).getD 0 + w)) = innerSum inner + w := by
  induction inner with
  | nil => simp [alistSet, alookup, innerSum]
  | cons p rest ih =>
    obtain ⟨k, v⟩ := p
    by_cases hk : k = b
    · subst hk
      simp [alistSet, alookup, innerSum]
      ring
    · simp only [alistSet, if_neg hk, alookup, if_neg hk, innerSum, List.map_cons,
        List.sum_cons] at ih ⊢
      rw [ih]
      ring

theorem alookup_addWeight_ne (m : List (String × List (String × Int))) (a b : String)
    (w : Int) (c : String) (hc : c ≠ a) :
    alookup (addWeight m a b w) c = alookup m c := by
  unfold addWeight
  cases h : alookup m a with
  | none => rfl
  | some inner => rw [alookup_alistSet, if_neg hc]

theorem alookup_addWeight_self (m : List (String × List (String × Int))) (a b : String)
    (w : Int) (inner : List (String × Int)) (ha : alookup m a = some inner) :
    alookup (addWeight m a b w) a =
      some (alistSet inner b ((alookup inner b).getD 0 + w)) := by
  unfold addWeight
  rw [ha]
  rw [alookup_alistSet, if_pos rfl]

theorem isSome_alookup_addWeight (m : List (String × List (String × Int))) (a b : String)
    (w : Int) (c : String) :
    (alookup (addWeight m a b w) c).isSome = (alookup m c).isSome := by
  by_cases hc : c = a
  · subst hc
    cases h : alookup m c with
    | none =>
      have heq : addWeight m c b w = m := by
        unfold addWeight
        rw [h]
      rw [heq, h]
    | some inner =>
      rw [alookup_addWeight_self m c b w inner h]
      rfl
  · rw [alookup_addWeight_ne m a b w c hc]

theorem totalOf_addWeight (m : List (String × List (String × Int))) (a b : String)
    (w : Int) (c : String) (ha : (alookup m a).isSome) :
    totalOf (addWeight m a b w) c = totalOf m c + (if a = c then w else 0) := by
  obtain ⟨inner, hinner⟩ := Option.isSome_iff_exists.mp ha
  by_cases hc : c = a
  · subst hc
    rw [if_pos rfl]
    unfold totalOf
    rw [alookup_addWeight_self m c b w inner hinner, hinner]
    simp [innerSum_alistSet_add]
  · rw [if_neg (fun h => hc h.symm), add_zero]
    unfold totalOf
    rw [alookup_addWeight_ne m a b w c hc]

theorem isSome_alookup_processLink (m : List (String × List (String × Int)))
    (l : NetworkLink) (c : String) :
    (alookup (processLink m l) c).isSome = (alookup m c).isSome := by
  unfold processLink
  by_cases hcond : (alookup m l.source).isSome ∧ (alookup m l.target).isSome
  · rw [if_pos hcond, isSome_alookup_addWeight, isSome_alookup_addWeight]
  · rw [if_neg hcond]

theorem totalOf_processLink (m : List (String × List (String × Int)))
    (l : NetworkLink) (c : String) :
    totalOf (processLink m l) c = totalOf m c +
      (if (alookup m l.source).isSome ∧ (alookup m l.target).isSome then
        (if l.source = c then l.weight else 0) + (if l.target = c then l.weight else 0)
      else 0) := by
  unfold processLink
  by_cases hcond : (alookup m l.source).isSome ∧ (alookup m l.target).isSome
  · rw [if_pos hcond, if_pos hcond]
    have h1 : (alookup (addWeight m l.source l.target l.weight) l.target).isSome := by
      rw [isSome_alookup_addWeight]
      exact hcond.2
    rw [totalOf_addWeight _ _ _ _ _ h1, totalOf_addWeight _ _ _ _ _ hcond.1]
    ring
  · rw [if_neg hcond, if_neg hcond, add_zero]

theorem totalOf_foldl (ls : List NetworkLink) (names : List String) :
    ∀ m : List (String × List (String × Int)),
      (∀ k, (alookup m k).isSome = true ↔ k ∈ names) → ∀ c,
      totalOf (ls.foldl processLink m) c =
        totalOf m c + (ls.map (incidentContribution names c)).sum := by
  induction ls with
  | nil =>
    intro m hm c
    simp
  | cons l rest ih =>
    intro m hm c
    rw [List.foldl_cons]
    have hm2 : ∀ k, (alookup (processLink m l) k).isSome = true ↔ k ∈ names := by
      intro k
      rw [isSome_alookup_processLink]
      exact hm k
    rw [ih (processLink m l) hm2 c, totalOf_processLink]
    simp only [List.map_cons, List.sum_cons, incidentContribution, hm]
    ring

theorem pairWeight_addWeight (m : List (String × List (String × Int))) (a b : String)
    (w : Int) (c d : String) (ha : (alookup m a).isSome) :
    pairWeight (addWeight m a b w) c d =
      pairWeight m c d + (if c = a ∧ d = b then w else 0) := by
  obtain ⟨inner, hinner⟩ := Option.isSome_iff_exists.mp ha
  by_cases hc : c = a
  · subst hc
    unfold pairWeight
    rw [alookup_addWeight_self m c b w inner hinner, hinner]
    simp only [Option.some_bind]
    rw [alookup_alistSet]
    by_cases hd : d = b
    · subst hd
      simp
    · rw [if_neg hd, if_neg (fun hh => hd hh.2), add_zero]
  · unfold pairWeight
    rw [alookup_addWeight_ne m a b w c hc, if_neg (fun hh => hc hh.1), add_zero]

theorem pairWeight_processLink (m : List (String × List (String × Int)))
    (l : NetworkLink) (c d : String) :
    pairWeight (processLink m l) c d = pairWeight m c d +
      (if (alookup m l.source).isSome ∧ (alookup m l.target).isSome then
        (if c = l.source ∧ d = l.target then l.weight else 0) +
        (if c = l.target ∧ d = l.source then l.weight else 0)
      else 0) := by
  unfold processLink
  by_cases hcond : (alookup m l.source).isSome ∧ (alookup m l.target).isSome
  · rw [if_pos hcond, if_pos hcond]
    have h1 : (alookup (addWeight m l.source l.target l.weight) l.target).isSome := by
      rw [isSome_alookup_addWeight]
      exact hcond.2
    rw [pairWeight_addWeight _ _ _ _ _ _ h1, pairWeight_addWeight _ _ _ _ _ _ hcond.1]
    ring
  · rw [if_neg hcond, if_neg hcond, add_zero]

theorem pairWeight_foldl (ls : List NetworkLink) (names : List String) :
    ∀ m : List (String × List (String × Int)),
      (∀ k, (alookup m k).isSome = true ↔ k ∈ names) → ∀ c d,
      pairWeight (ls.foldl processLink m) c d =
        pairWeight m c d + (ls.map (pairContribution names c d)).sum := by
  induction ls with
  | nil =>
    intro m hm c d
    simp
  | cons l rest ih =>
    intro m hm c d
    rw [List.foldl_cons]
    have hm2 : ∀ k, (alookup (processLink m l) k).isSome = true ↔ k ∈ names := by
      intro k
      rw [isSome_alookup_processLink]
      exact hm k
    rw [ih (processLink m l) hm2 c d, pairWeight_processLink]
    simp only [List.map_cons, List.sum_cons, pairContribution, hm]
    ring

theorem pairContribution_symm (names : List String) (c d : String) (l : NetworkLink) :
    pairContribution names c d l = pairContribution names d c l := by
  unfold pairContribution
  by_cases hc : l.source ∈ names ∧ l.target ∈ names
  · rw [if_pos hc, if_pos hc, add_comm]
    congr 1
    · exact if_congr and_comm rfl rfl
    · exact if_congr and_comm rfl rfl
  · rw [if_neg hc, if_neg hc]

theorem alookup_initFold (nodes : List NetworkNode) :
    ∀ (m : List (String × List (String × Int))) (k : String),
      alookup (nodes.foldl (fun m node => alistSet m node.name []) m) k =
        if k ∈ nodes.map NetworkNode.name then some [] else alookup m k := by
  induction nodes with
  | nil =>
    intro m k
    simp
  | cons n rest ih =>
    intro m k
    rw [List.foldl_cons, ih]
    by_cases hmem : k ∈ rest.map NetworkNode.name
    · rw [if_pos hmem, if_pos (by simp [hmem])]
    · rw [if_neg hmem, alookup_alistSet]
      by_cases hk : k = n.name
      · rw [if_pos hk, if_pos (by simp [hk])]
      · rw [if_neg hk, if_neg (by simp [hk, hmem])]

theorem alookup_initInteractionMap (nodes : List NetworkNode) (k : String) :
    alookup (initInteractionMap nodes) k =
      if k ∈ nodes.map NetworkNode.name then some [] else none := by
  unfold initInteractionMap
  rw [alookup_initFold]
  by_cases h : k ∈ nodes.map NetworkNode.name <;> simp [h, alookup]

theorem isSome_alookup_initInteractionMap (nodes : List NetworkNode) (k : String) :
    (alookup (initInteractionMap nodes) k).isSome = true ↔
      k ∈ nodes.map NetworkNode.name := by
  rw [alookup_initInteractionMap]
  by_cases h : k ∈ nodes.map NetworkNode.name <;> simp [h]

theorem pairWeight_initInteractionMap (nodes : List NetworkNode) (c d : String) :
    pairWeight (initInteractionMap nodes) c d = 0 := by
  unfold pairWeight
  rw [alookup_initInteractionMap]
  by_cases h : c ∈ nodes.map NetworkNode.name <;> simp [h, alookup]

theorem totalOf_initInteractionMap (nodes : List NetworkNode) (c : String) :
    totalOf (initInteractionMap nodes) c = 0 := by
  unfold totalOf
  rw [alookup_initInteractionMap]
  by_cases h : c ∈ nodes.map NetworkNode.name <;> simp [h, innerSum]

theorem keys_alistSet {β : Type} (m : List (String × β)) (k : String) (v : β) :
    (alistSet m k v).map Prod.fst =
      if k ∈ m.map Prod.fst then m.map Prod.fst else m.map Prod.fst ++ [k] := by
  induction m with
  | nil => simp [alistSet]
  | cons p rest ih =>
    obtain ⟨a, b⟩ := p
    by_cases hak : a = k
    · subst hak
      simp [alistSet]
    · simp only [alistSet, if_neg hak, List.map_cons, ih]
      by_cases hk : k ∈ rest.map Prod.fst
      · rw [if_pos hk, if_pos (by simp [hk])]
      · rw [if_neg hk, if_neg (by simp [hk, Ne.symm hak])]
        simp

theorem nodup_keys_alistSet {β : Type} (m : List (String × β)) (k : String) (v : β)
    (h : (m.map Prod.fst).Nodup) : ((alistSet m k v).map Prod.fst).Nodup := by
  rw [keys_alistSet]
  by_cases hk : k ∈ m.map Prod.fst
  · rw [if_pos hk]
    exact h
  · rw [if_neg hk]
    simp [List.nodup_append, h, hk]

theorem nodup_keys_initFold (nodes : List NetworkNode) :
    ∀ m : List (String × List (String × Int)), (m.map Prod.fst).Nodup →
      ((nodes.foldl (fun m node => alistSet m node.name []) m).map Prod.fst).Nodup := by
  induction nodes with
  | nil => intro m h; exact h
  | cons n rest ih =>
    intro m h
    exact ih _ (nodup_keys_alistSet _ _ _ h)

theorem nodup_keys_initInteractionMap (nodes : List NetworkNode) :
    ((initInteractionMap nodes).map Prod.fst).Nodup :=
  nodup_keys_initFold nodes [] (by simp)

theorem mem_keys_of_alookup {β : Type} (m : List (String × β)) (k : String) (v : β)
    (h : alookup m k = some v) : k ∈ m.map Prod.fst := by
  induction m with
  | nil => cases h
  | cons p rest ih =>
    obtain ⟨a, b⟩ := p
    by_cases hak : a = k
    · simp [hak]
    · simp only [alookup, if_neg hak] at h
      simp [ih h]

theorem keys_addWeight (m : List (String × List (String × Int))) (a b : String) (w : Int) :
    (addWeight m a b w).map Prod.fst = m.map Prod.fst := by
  unfold addWeight
  cases h : alookup m a with
  | none => rfl
  | some inner =>
    rw [keys_alistSet, if_pos (mem_keys_of_alookup m a inner h)]

theorem keys_processLink (m : List (String × List (String × Int))) (l : NetworkLink) :
    (processLink m l).map Prod.fst = m.map Prod.fst := by
  unfold processLink
  by_cases hcond : (alookup m l.source).isSome ∧ (alookup m l.target).isSome
  · rw [if_pos hcond, keys_addWeight, keys_addWeight]
  · rw [if_neg hcond]

theorem keys_foldl_processLink (ls : List NetworkLink) :
    ∀ m : List (String × List (String × Int)),
      ((ls.foldl processLink m)).map Prod.fst = m.map Prod.fst := by
  induction ls with
  | nil => intro m; rfl
  | cons l rest ih =>
    intro m
    rw [List.foldl_cons, ih, keys_processLink]

theorem alookup_eq_of_mem_nodup {β : Type} (m : List (String × β)) (k : String) (v : β)
    (hnodup : (m.map Prod.fst).Nodup) (hmem : (k, v) ∈ m) : alookup m k = some v := by
  induction m with
  | nil => cases hmem
  | cons p rest ih =>
    obtain ⟨a, b⟩ := p
    have hnodup2 : (rest.map Prod.fst).Nodup := by
      simp only [List.map_cons, List.nodup_cons] at hnodup
      exact hnodup.2
    have hnotmem : a ∉ rest.map Prod.fst := by
      simp only [List.map_cons, List.nodup_cons] at hnodup
      exact hnodup.1
    rcases List.mem_cons.mp hmem with he | hm
    · have h1 : k = a := congrArg Prod.fst he
      have h2 : v = b := congrArg Prod.snd he
      subst h1
      subst h2
      simp [alookup]
    · have ha : ¬a = k := by
        intro heq
        subst heq
        exact hnotmem (by simpa using List.mem_map_of_mem Prod.fst hm)
      simp only [alookup, if_neg ha]
      exact ih hnodup2 hm

theorem alookup_processLink_untouched (m : List (String × List (String × Int)))
    (l : NetworkLink) (c : String) (h1 : l.source ≠ c) (h2 : l.target ≠ c) :
    alookup (processLink m l) c = alookup m c := by
  unfold processLink
  by_cases hcond : (alookup m l.source).isSome ∧ (alookup m l.target).isSome
  · rw [if_pos hcond, alookup_addWeight_ne _ _ _ _ _ (Ne.symm h2),
      alookup_addWeight_ne _ _ _ _ _ (Ne.symm h1)]
  · rw [if_neg hcond]

theorem alookup_foldl_untouched (ls : List NetworkLink) (c : String) :
    ∀ m : List (String × List (String × Int)),
      (∀ l ∈ ls, l.source ≠ c ∧ l.target ≠ c) →
      alookup (ls.foldl processLink m) c = alookup m c := by
  induction ls with
  | nil => intro m _; rfl
  | cons l rest ih =>
    intro m hno
    rw [List.foldl_cons, ih _ (fun x hx => hno x (List.mem_cons_of_mem l hx)),
      alookup_processLink_untouched _ _ _ (hno l (List.mem_cons_self l rest)).1
        (hno l (List.mem_cons_self l rest)).2]

theorem mem_getCharacterInteractions (nodes : List NetworkNode) (links : List NetworkLink)
    (e : CharacterInteractionSummary) :
    e ∈ getCharacterInteractions nodes links ↔
      e ∈ (buildInteractionMap nodes links).map (fun p =>
        ({ character := p.1, totalInteractions := innerSum p.2,
           partners := (List.insertionSort (fun x y : String × Int => y.2 ≤ x.2) p.2).take 8 } :
          CharacterInteractionSummary)) := by
  unfold getCharacterInteractions
  exact (List.perm_insertionSort _ _).mem_iff

/-- C2 is false as stated: on the reachable graph with the self-loop
Alice–Alice of weight 3, Alice's summary entry has `totalInteractions = 6`
(the loop's weight is accumulated once from the source side and once from
the target side of the same map), while the sum of the weights of the
links incident to Alice is 3. -/
theorem summary_self_loop_double_count :
    getCharacterInteractions
        (updateData (AnalysisResult.mk (some [⟨"Alice", 5, "d"⟩])
          (some [⟨"Alice", "Alice", 3, []⟩])) initialGraphState).nodes
        (updateData (AnalysisResult.mk (some [⟨"Alice", 5, "d"⟩])
          (some [⟨"Alice", "Alice", 3, []⟩])) initialGraphState).links =
      [⟨"Alice", 6, [("Alice", 6)]⟩] ∧
    (((updateData (AnalysisResult.mk (some [⟨"Alice", 5, "d"⟩])
          (some [⟨"Alice", "Alice", 3, []⟩])) initialGraphState).links.filter (fun l =>
        decide (l.source = "Alice" ∨ l.target = "Alice"))).map NetworkLink.weight).sum = 3 ∧
    (6 : Int) ≠ 3 := by
  decide

/-- C2 (amended): the Character Interaction Summary is sorted descending by
`totalInteractions`; each entry's partners list is sorted descending by
accumulated weight and has at most 8 entries; and each entry's
`totalInteractions` equals the sum over the link list of each link's
contribution to that character, where a link contributes its weight once
per endpoint equal to the character (hence twice for a self-loop) and
contributes nothing when either endpoint is not a known node name. -/
theorem summary_ranking (nodes : List NetworkNode) (links : List NetworkLink) :
    List.Pairwise (fun a b => b.totalInteractions ≤ a.totalInteractions)
      (getCharacterInteractions nodes links) ∧
    (∀ e ∈ getCharacterInteractions nodes links,
      List.Pairwise (fun x y : String × Int => y.2 ≤ x.2) e.partners ∧
      e.partners.length ≤ 8) ∧
    (∀ e ∈ getCharacterInteractions nodes links,
      e.totalInteractions =
        (links.map (incidentContribution (nodes.map NetworkNode.name) e.character)).sum) := by
  refine ⟨?_, ?_, ?_⟩
  · haveI : IsTotal CharacterInteractionSummary
        (fun a b => b.totalInteractions ≤ a.totalInteractions) :=
      ⟨fun a b => le_total b.totalInteractions a.totalInteractions⟩
    haveI : IsTrans CharacterInteractionSummary
        (fun a b => b.totalInteractions ≤ a.totalInteractions) :=
      ⟨fun a b c h1 h2 => le_trans h2 h1⟩
    exact List.sorted_insertionSort _ _
  · intro e he
    obtain ⟨p, hp, rfl⟩ := List.mem_map.mp ((mem_getCharacterInteractions _ _ _).mp he)
    constructor
    · haveI : IsTotal (String × Int) (fun x y => y.2 ≤ x.2) :=
        ⟨fun a b => le_total b.2 a.2⟩
      haveI : IsTrans (String × Int) (fun x y => y.2 ≤ x.2) :=
        ⟨fun a b c h1 h2 => le_trans h2 h1⟩
      exact List.Pairwise.sublist (List.take_sublist _ _) (List.sorted_insertionSort _ _)
    · simp only [List.length_take]
      exact min_le_left _ _
  · intro e he
    obtain ⟨p, hp, rfl⟩ := List.mem_map.mp ((mem_getCharacterInteractions _ _ _).mp he)
    have hnodup : ((buildInteractionMap nodes links).map Prod.fst).Nodup := by
      unfold buildInteractionMap
      rw [keys_foldl_processLink]
      exact nodup_keys_initInteractionMap nodes
    have hlk : alookup (buildInteractionMap nodes links) p.1 = some p.2 := by
      apply alookup_eq_of_mem_nodup _ _ _ hnodup
      simpa using hp
    have htot : totalOf (buildInteractionMap nodes links) p.1 = innerSum p.2 := by
      unfold totalOf
      rw [hlk]
      rfl
    have hfold := totalOf_foldl links (nodes.map NetworkNode.name) (initInteractionMap nodes)
      (isSome_alookup_initInteractionMap nodes) p.1
    rw [totalOf_initInteractionMap] at hfold
    rw [show links.foldl processLink (initInteractionMap nodes) =
        buildInteractionMap nodes links from rfl, htot] at hfold
    simpa using hfold

theorem summary_ranking_witness :
    List.Pairwise (fun a b => b.totalInteractions ≤ a.totalInteractions)
      (getCharacterInteractions [mkNode 0 ⟨"Alice", 5, "d"⟩] [⟨"Alice", "Alice", 3, []⟩]) ∧
    (⟨"Alice", 6, [("Alice", 6)]⟩ : CharacterInteractionSummary).totalInteractions =
      (([⟨"Alice", "Alice", 3, []⟩] : List NetworkLink).map
        (incidentContribution ([mkNode 0 ⟨"Alice", 5, "d"⟩].map NetworkNode.name)
          (⟨"Alice", 6, [("Alice", 6)]⟩ : CharacterInteractionSummary).character)).sum :=
  ⟨(summary_ranking [mkNode 0 ⟨"Alice", 5, "d"⟩] [⟨"Alice", "Alice", 3, []⟩]).1,
    (summary_ranking [mkNode 0 ⟨"Alice", 5, "d"⟩] [⟨"Alice", "Alice", 3, []⟩]).2.2
      ⟨"Alice", 6, [("Alice", 6)]⟩ (by decide)⟩

/-- C10: the interaction summary accumulation is symmetric — for any two
distinct characters present in the node set, the accumulated partner
weight that A records for B equals the one B records for A (each link
counts toward both endpoint maps, parallel links accumulate) — and every
node of the node set has a summary entry, whose total is 0 and whose
partners list is empty when the node has no incident links. -/
theorem summary_symmetric_and_complete (nodes : List NetworkNode) (links : List NetworkLink) :
    (∀ A B, A ∈ nodes.map NetworkNode.name → B ∈ nodes.map NetworkNode.name → A ≠ B →
      pairWeight (buildInteractionMap nodes links) A B =
        pairWeight (buildInteractionMap nodes links) B A) ∧
    (∀ node ∈ nodes, ∃ e ∈ getCharacterInteractions nodes links,
      e.character = node.name ∧
      ((∀ l ∈ links, l.source ≠ node.name ∧ l.target ≠ node.name) →
        e.totalInteractions = 0 ∧ e.partners = [])) := by
  constructor
  · intro A B hA hB hAB
    have h1 := pairWeight_foldl links (nodes.map NetworkNode.name) (initInteractionMap nodes)
      (isSome_alookup_initInteractionMap nodes) A B
    have h2 := pairWeight_foldl links (nodes.map NetworkNode.name) (initInteractionMap nodes)
      (isSome_alookup_initInteractionMap nodes) B A
    rw [pairWeight_initInteractionMap] at h1 h2
    have hfg : pairContribution (nodes.map NetworkNode.name) A B =
        pairContribution (nodes.map NetworkNode.name) B A :=
      funext (fun l => pairContribution_symm _ _ _ l)
    unfold buildInteractionMap
    rw [h1, h2, hfg]
  · intro node hnode
    have hmemname : node.name ∈ nodes.map NetworkNode.name := List.mem_map_of_mem _ hnode
    have hinitlk : alookup (initInteractionMap nodes) node.name = some [] := by
      rw [alookup_initInteractionMap, if_pos hmemname]
    have hmemkeys : node.name ∈ (buildInteractionMap nodes links).map Prod.fst := by
      unfold buildInteractionMap
      rw [keys_foldl_processLink]
      exact mem_keys_of_alookup _ _ _ hinitlk
    obtain ⟨p, hpM, hp1⟩ := List.mem_map.mp hmemkeys
    refine ⟨{ character := p.1, totalInteractions := innerSum p.2,
              partners := (List.insertionSort (fun x y : String × Int => y.2 ≤ x.2) p.2).take 8 },
      (mem_getCharacterInteractions _ _ _).mpr (List.mem_map_of_mem _ hpM), hp1, ?_⟩
    intro hno
    have hnodup : ((buildInteractionMap nodes links).map Prod.fst).Nodup := by
      unfold buildInteractionMap
      rw [keys_foldl_processLink]
      exact nodup_keys_initInteractionMap nodes
    have hlk : alookup (buildInteractionMap nodes links) p.1 = some p.2 := by
      apply alookup_eq_of_mem_nodup _ _ _ hnodup
      simpa using hpM
    have huntouched : alookup (buildInteractionMap nodes links) node.name =
        alookup (initInteractionMap nodes) node.name := by
      unfold buildInteractionMap
      exact alookup_foldl_untouched links node.name _ hno
    rw [hinitlk, hp1] at *
    rw [hlk] at huntouched
    have hp2 : p.2 = [] := Option.some.inj huntouched
    constructor
    · simp [hp2, innerSum]
    · simp [hp2]

theorem summary_symmetric_and_complete_witness :
    pairWeight (buildInteractionMap [mkNode 0 ⟨"Alice", 5, "d"⟩, mkNode 1 ⟨"Bob", 5, "d"⟩]
        [⟨"Alice", "Bob", 3, []⟩]) "Alice" "Bob" =
      pairWeight (buildInteractionMap [mkNode 0 ⟨"Alice", 5, "d"⟩, mkNode 1 ⟨"Bob", 5, "d"⟩]
        [⟨"Alice", "Bob", 3, []⟩]) "Bob" "Alice" :=
  (summary_symmetric_and_complete [mkNode 0 ⟨"Alice", 5, "d"⟩, mkNode 1 ⟨"Bob", 5, "d"⟩]
    [⟨"Alice", "Bob", 3, []⟩]).1 "Alice" "Bob" (by decide) (by decide) (by decide)

theorem foldl_min_le (l : List ℝ) : ∀ (a x : ℝ), x ∈ a :: l → l.foldl min a ≤ x := by
  induction l with
  | nil =>
    intro a x hx
    rw [List.mem_singleton] at hx
    subst hx
    simp
  | cons b t ih =>
    intro a x hx
    rw [List.foldl_cons]
    rcases List.mem_cons.mp hx with rfl | hx2
    · exact le_trans (ih _ _ (List.mem_cons_self _ _)) (min_le_left _ _)
    · rcases List.mem_cons.mp hx2 with rfl | hx3
      · exact le_trans (ih _ _ (List.mem_cons_self _ _)) (min_le_right _ _)
      · exact ih _ x (List.mem_cons_of_mem _ hx3)

theorem le_foldl_max (l : List ℝ) : ∀ (a x : ℝ), x ∈ a :: l → x ≤ l.foldl max a := by
  induction l with
  | nil =>
    intro a x hx
    rw [List.mem_singleton] at hx
    subst hx
    simp
  | cons b t ih =>
    intro a x hx
    rw [List.foldl_cons]
    rcases List.mem_cons.mp hx with rfl | hx2
    · exact le_trans (le_max_left _ _) (ih _ _ (List.mem_cons_self _ _))
    · rcases List.mem_cons.mp hx2 with rfl | hx3
      · exact le_trans (le_max_right _ _) (ih _ _ (List.mem_cons_self _ _))
      · exact ih _ x (List.mem_cons_of_mem _ hx3)

theorem listMin_le (l : List ℝ) (x : ℝ) (hx : x ∈ l) : listMin l ≤ x := by
  cases l with
  | nil => cases hx
  | cons a t => exact foldl_min_le t a x hx

theorem le_listMax (l : List ℝ) (x : ℝ) (hx : x ∈ l) : x ≤ listMax l := by
  cases l with
  | nil => cases hx
  | cons a t => exact le_foldl_max t a x hx

theorem fitRadius_ge_fifty (n : NetworkNode) : 50 ≤ fitRadius n := by
  unfold fitRadius
  have h := radius_ge_thirty n
  have h2 : n.radius ≤ max n.radius (((n.name.length : ℝ) * 8 + 20) / 2) := le_max_left _ _
  linarith

/-- C8: with zero nodes `autoFitGraph` is a no-op; with at least one node
it computes exactly the transform the claim describes — the bounding box
over `position ± (max(node.radius, (nameLength * 8 + 20) / 2) + 20)` with
content width/height floored at 100,
`scale = min((W - 160) / contentWidth, (H - 160) / contentHeight, 1.5)`
(hence never above 1.5) and
`translate = (W/2 - centerX * scale, H/2 - centerY * scale)`. -/
theorem autoFit_transform (nodes : List NetworkNode) (width height : ℝ) :
    autoFitGraph [] width height = none ∧
    (nodes ≠ [] →
      autoFitGraph nodes width height = specAutoFitGraph nodes width height ∧
      ∀ tx ty sc, autoFitGraph nodes width height = some (tx, ty, sc) → sc ≤ 1.5) := by
  refine ⟨rfl, ?_⟩
  intro hne
  obtain ⟨n0, rest, rfl⟩ := List.exists_cons_of_ne_nil hne
  have hr := fitRadius_ge_fifty n0
  have hminx := listMin_le ((n0 :: rest).map fun n => nodeFitX n - fitRadius n)
    (nodeFitX n0 - fitRadius n0) (List.mem_map_of_mem _ (List.mem_cons_self _ _))
  have hmaxx := le_listMax ((n0 :: rest).map fun n => nodeFitX n + fitRadius n)
    (nodeFitX n0 + fitRadius n0) (List.mem_map_of_mem _ (List.mem_cons_self _ _))
  have hminy := listMin_le ((n0 :: rest).map fun n => nodeFitY n - fitRadius n)
    (nodeFitY n0 - fitRadius n0) (List.mem_map_of_mem _ (List.mem_cons_self _ _))
  have hmaxy := le_listMax ((n0 :: rest).map fun n => nodeFitY n + fitRadius n)
    (nodeFitY n0 + fitRadius n0) (List.mem_map_of_mem _ (List.mem_cons_self _ _))
  have hwx : (100 : ℝ) ≤
      listMax ((n0 :: rest).map fun n => nodeFitX n + fitRadius n) -
        listMin ((n0 :: rest).map fun n => nodeFitX n - fitRadius n) := by
    linarith
  have hwy : (100 : ℝ) ≤
      listMax ((n0 :: rest).map fun n => nodeFitY n + fitRadius n) -
        listMin ((n0 :: rest).map fun n => nodeFitY n - fitRadius n) := by
    linarith
  constructor
  · simp only [autoFitGraph, specAutoFitGraph]
    rw [if_neg (ne_of_gt (lt_of_lt_of_le (by norm_num) hwx)),
      if_neg (ne_of_gt (lt_of_lt_of_le (by norm_num) hwy)),
      max_eq_left hwx, max_eq_left hwy]
    norm_num
  · intro tx ty sc hsc
    simp only [autoFitGraph] at hsc
    have hc := congrArg (fun t => t.2.2) (Option.some.inj hsc)
    simp only at hc
    rw [← hc]
    exact min_le_right _ _

theorem autoFit_transform_witness :
    autoFitGraph [mkNode 0 ⟨"Alice", 5, "d"⟩] 800 600 =
      specAutoFitGraph [mkNode 0 ⟨"Alice", 5, "d"⟩] 800 600 :=
  ((autoFit_transform [mkNode 0 ⟨"Alice", 5, "d"⟩] 800 600).2 (List.cons_ne_nil _ _)).1

end GutenbergGraph
